import Mathlib

/-!
# grapher/core.hpp : benchmark entries, measure kinds and benchmark series

A shallow embedding of `grapher/include/grapher/core.hpp`.

Conventions of the embedding

* `int` and `long` values are only stored and compared by the code below, never
  computed with, so they are `Int`.
* `std::size_t` values are `Nat`; every `std::size_t` product or sum the code
  computes is reduced modulo `2 ^ 64` (`size_wrap`).
* `std::vector<entry_t>` is `List entry_t`.  An iterator into the vector is the
  offset from `cbegin()`; forming an iterator is offset arithmetic and never
  fails, reading through an iterator or through `operator[]` at an offset that is
  not below the stored length is undefined behaviour in C++ and is the result
  `none` here.
-/

set_option autoImplicit false

namespace grapher

/-! ## Definitions -/

/-- Measure type: `using measure_t = long`. -/
abbrev measure_t := Int

/-- Contains all the metrics for a given benchmark: `struct entry_t`. -/
structure entry_t where
  size : Int
  execute_compiler : measure_t
  frontend : measure_t
  source : measure_t
  instantiate_function : measure_t
  parse_class : measure_t
  instantiate_class : measure_t
  backend : measure_t
  opt_module : measure_t
  parse_template : measure_t
  opt_function : measure_t
  run_pass : measure_t
  per_module_passes : measure_t
  perform_pending_instantiations : measure_t
  run_loop_pass : measure_t
  code_gen_passes : measure_t
  code_gen_function : measure_t
  per_function_passes : measure_t
deriving DecidableEq

/-- The sentinel size: `static constexpr int nsize = -1`. -/
def entry_t.nsize : Int := -1

/-- Check entry validity: `operator bool() const noexcept { return size != nsize; }`. -/
def entry_t.operator_bool (e : entry_t) : Bool :=
  e.size != entry_t.nsize

/-- Represents a kind of measure: the enumerators of `enum measure_kind_t`. -/
inductive measure_kind_t where
  | execute_compiler_v
  | frontend_v
  | source_v
  | instantiate_function_v
  | parse_class_v
  | instantiate_class_v
  | backend_v
  | opt_module_v
  | parse_template_v
  | opt_function_v
  | run_pass_v
  | per_module_passes_v
  | perform_pending_instantiations_v
  | run_loop_pass_v
  | code_gen_passes_v
  | code_gen_function_v
  | per_function_passes_v
deriving DecidableEq

open measure_kind_t

/-- The enumerator values of `measure_kind_t`: no enumerator has an initialiser, so the
first one is `0` and each following one is its predecessor plus one. -/
def measure_kind_t.toNat : measure_kind_t → Nat
  | execute_compiler_v => 0
  | frontend_v => 1
  | source_v => 2
  | instantiate_function_v => 3
  | parse_class_v => 4
  | instantiate_class_v => 5
  | backend_v => 6
  | opt_module_v => 7
  | parse_template_v => 8
  | opt_function_v => 9
  | run_pass_v => 10
  | per_module_passes_v => 11
  | perform_pending_instantiations_v => 12
  | run_loop_pass_v => 13
  | code_gen_passes_v => 14
  | code_gen_function_v => 15
  | per_function_passes_v => 16

/-- Collection of measures to iterate on: `measure_kind_iterable`. -/
def measure_kind_iterable : List measure_kind_t :=
  [ execute_compiler_v,
    frontend_v,
    source_v,
    instantiate_function_v,
    parse_class_v,
    instantiate_class_v,
    backend_v,
    opt_module_v,
    parse_template_v,
    opt_function_v,
    run_pass_v,
    per_module_passes_v,
    perform_pending_instantiations_v,
    run_loop_pass_v,
    code_gen_passes_v,
    code_gen_function_v,
    per_function_passes_v ]

/-- The `switch (m)` of `get_measure` together with the statement `return -1;` that follows
it, over the integer value `v` of `m`: the case labels are the enumerator values, and a
value that no label matches falls out of the switch. -/
def get_measure_switch (e : entry_t) (v : Nat) : measure_t :=
  if v = execute_compiler_v.toNat then e.execute_compiler
  else if v = frontend_v.toNat then e.frontend
  else if v = source_v.toNat then e.source
  else if v = instantiate_function_v.toNat then e.instantiate_function
  else if v = parse_class_v.toNat then e.parse_class
  else if v = instantiate_class_v.toNat then e.instantiate_class
  else if v = backend_v.toNat then e.backend
  else if v = opt_module_v.toNat then e.opt_module
  else if v = parse_template_v.toNat then e.parse_template
  else if v = opt_function_v.toNat then e.opt_function
  else if v = run_pass_v.toNat then e.run_pass
  else if v = per_module_passes_v.toNat then e.per_module_passes
  else if v = perform_pending_instantiations_v.toNat then e.perform_pending_instantiations
  else if v = run_loop_pass_v.toNat then e.run_loop_pass
  else if v = code_gen_passes_v.toNat then e.code_gen_passes
  else if v = code_gen_function_v.toNat then e.code_gen_function
  else if v = per_function_passes_v.toNat then e.per_function_passes
  else -1

/-- Get the measure designated by m in e: `get_measure`. -/
def get_measure (e : entry_t) (m : measure_kind_t) : measure_t :=
  get_measure_switch e m.toNat

/-- The `switch (m)` of `get_measure_name` together with the statement `return "Invalid";`
that follows it, over the integer value `v` of `m`. -/
def get_measure_name_switch (v : Nat) : String :=
  if v = execute_compiler_v.toNat then "Execute Compiler"
  else if v = frontend_v.toNat then "Frontend"
  else if v = source_v.toNat then "Source"
  else if v = instantiate_function_v.toNat then "Instantiate Function"
  else if v = parse_class_v.toNat then "Parse Class"
  else if v = instantiate_class_v.toNat then "Instantiate Class"
  else if v = backend_v.toNat then "Backend"
  else if v = opt_module_v.toNat then "Opt Module"
  else if v = parse_template_v.toNat then "Parse Template"
  else if v = opt_function_v.toNat then "Opt Function"
  else if v = run_pass_v.toNat then "Run Pass"
  else if v = per_module_passes_v.toNat then "Per Module Passes"
  else if v = perform_pending_instantiations_v.toNat then "Perform Pending Instantiations"
  else if v = run_loop_pass_v.toNat then "Run Loop Pass"
  else if v = code_gen_passes_v.toNat then "Code Gen Passes"
  else if v = code_gen_function_v.toNat then "Code Gen Function"
  else if v = per_function_passes_v.toNat then "Per Function Passes"
  else "Invalid"

/-- Get the measure name of m: `get_measure_name`. -/
def get_measure_name (m : measure_kind_t) : String :=
  get_measure_name_switch m.toNat

/-- The number of values of `std::size_t` (64 bits). -/
def SIZE_RANGE : Nat := 2 ^ 64

/-- Reduction of an arithmetic result to `std::size_t`. -/
def size_wrap (n : Nat) : Nat := n % SIZE_RANGE

/-- Represents a benchmark series: `class benchmark_t`. -/
structure benchmark_t where
  _name : String
  _size : Nat
  _iterations : Nat
  _entries : List entry_t
deriving DecidableEq

namespace benchmark_t

/-- The three-argument constructor: `_entries()` is empty. -/
def empty (name : String) (size iterations : Nat) : benchmark_t :=
  ⟨name, size, iterations, []⟩

/-- The accessor `name()`. -/
def name (b : benchmark_t) : String := b._name

/-- The accessor `size()`. -/
def size (b : benchmark_t) : Nat := b._size

/-- The accessor `iterations()`. -/
def iterations (b : benchmark_t) : Nat := b._iterations

/-- Constant begin iterator for all iterations of a given size index:
`_entries.cbegin() + size_i * _iterations`, as an offset from `cbegin()`. -/
def begin_const (b : benchmark_t) (size_i : Nat) : Nat :=
  size_wrap (size_i * b._iterations)

/-- Constant end iterator for all iterations of a given size index:
`_entries.cbegin() + (size_i + 1) * _iterations`, as an offset from `cbegin()`. -/
def end_const (b : benchmark_t) (size_i : Nat) : Nat :=
  size_wrap (size_wrap (size_i + 1) * b._iterations)

/-- Begin iterator (non-const overload): `_entries.begin() + size_i * _iterations`. -/
def begin_mut (b : benchmark_t) (size_i : Nat) : Nat :=
  size_wrap (size_i * b._iterations)

/-- End iterator (non-const overload): `_entries.begin() + (size_i + 1) * _iterations`. -/
def end_mut (b : benchmark_t) (size_i : Nat) : Nat :=
  size_wrap (size_wrap (size_i + 1) * b._iterations)

/-- The non-const `operator()`: the element `_entries[size_i * _iterations + iteration]`
the returned reference designates, `none` when the offset is outside the vector. -/
def operator_call (b : benchmark_t) (size_i iteration : Nat) : Option entry_t :=
  b._entries[size_wrap (size_wrap (size_i * b._iterations) + iteration)]?

/-- The const `operator()`: `_entries[size_i * _iterations + iteration]`. -/
def operator_call_const (b : benchmark_t) (size_i iteration : Nat) : Option entry_t :=
  b._entries[size_wrap (size_wrap (size_i * b._iterations) + iteration)]?

end benchmark_t

/-- The loop of `std::all_of(first, last, pred)`,
`for (; first != last; ++first) if (!pred(*first)) return false; return true;`,
where `storage` is what the vector holds from offset `first` on: reading `*first` when
nothing is stored there gives `none`. -/
def all_of_loop (pred : entry_t → Bool) (last : Nat) : List entry_t → Nat → Option Bool
  | [], first => if first = last then some true else none
  | e :: storage, first =>
    if first = last then some true
    else if pred e then all_of_loop pred last storage (first + 1)
    else some false

/-- The call `std::all_of(first, last, pred)` on iterators into the vector `entries`. -/
def all_of (entries : List entry_t) (first last : Nat) (pred : entry_t → Bool) : Option Bool :=
  all_of_loop pred last (entries.drop first) first

/-- The entries a traversal `for (it = first; it != last; ++it)` of the vector visits, in
order; `none` when it reads where nothing is stored. -/
def range_loop (last : Nat) : List entry_t → Nat → Option (List entry_t)
  | [], first => if first = last then some [] else none
  | e :: storage, first =>
    if first = last then some []
    else (range_loop last storage (first + 1)).map (fun visited => e :: visited)

namespace benchmark_t

/-- The range `[begin(size_i), end(size_i))` (const overloads): the entries visited from
`begin(size_i)` until `end(size_i)`. -/
def range_for (b : benchmark_t) (size_i : Nat) : Option (List entry_t) :=
  range_loop (b.end_const size_i) (b._entries.drop (b.begin_const size_i)) (b.begin_const size_i)

/-- The range `[begin(size_i), end(size_i))` of the non-const overloads. -/
def range_for_mut (b : benchmark_t) (size_i : Nat) : Option (List entry_t) :=
  range_loop (b.end_mut size_i) (b._entries.drop (b.begin_mut size_i)) (b.begin_mut size_i)

/-- The body of the loop of `is_valid` for one `size_id`: the lambda capture
`s = this->begin(size_id)->size` reads the entry at `begin(size_id)`, then `std::all_of`
runs over `[begin(size_id), end(size_id))` with the predicate `e.size == s`. -/
def is_valid_bucket (b : benchmark_t) (size_id : Nat) : Option Bool :=
  match b._entries[b.begin_const size_id]? with
  | none => none
  | some e0 =>
    all_of b._entries (b.begin_const size_id) (b.end_const size_id) (fun e => e.size == e0.size)

/-- The loop `for (size_id = ..; size_id < _size; size_id++)` of `is_valid`, with
`trips = _size - size_id` iterations left: `return false` as soon as `std::all_of` is
false, `return true` after the loop. -/
def is_valid_for (b : benchmark_t) : (trips : Nat) → (size_id : Nat) → Option Bool
  | 0, _ => some true
  | trips + 1, size_id =>
    match b.is_valid_bucket size_id with
    | none => none
    | some false => some false
    | some true => is_valid_for b trips (size_id + 1)

/-- The member function `is_valid`: the dimension check
`if (_entries.size() == _iterations * _size) return false;` and then the loop. -/
def is_valid (b : benchmark_t) : Option Bool :=
  if b._entries.length = size_wrap (b._iterations * b._size) then some false
  else b.is_valid_for b._size 0

end benchmark_t

/-- An entry with problem size `size` whose seventeen measures are `1, 2, ..., 17`. -/
def sample_entry (size : Int) : entry_t :=
  ⟨size, 1, 2, 3, 4, 5, 6, 7, 8, 9, 10, 11, 12, 13, 14, 15, 16, 17⟩

/-- The series of shape `(size, iterations)` holding one `sample_entry` per listed size. -/
def sample_series (size iterations : Nat) (sizes : List Int) : benchmark_t :=
  ⟨"series", size, iterations, sizes.map sample_entry⟩

/-- The rectangular-grid condition of the specification: for every size index below
`_size`, the entries at the flat offsets of that bucket carry one problem size. -/
def benchmark_t.bucket_sizes_agree (b : benchmark_t) : Prop :=
  ∀ i < b._size, ∀ j < b._iterations, ∀ k < b._iterations,
    (b._entries[i * b._iterations + j]?).map entry_t.size
      = (b._entries[i * b._iterations + k]?).map entry_t.size

instance (b : benchmark_t) : Decidable b.bucket_sizes_agree := by
  unfold benchmark_t.bucket_sizes_agree
  infer_instance

/-- The seventeen measurement fields of an entry, in the order of their declaration in
`struct entry_t`. -/
def entry_t.measures (e : entry_t) : List measure_t :=
  [ e.execute_compiler,
    e.frontend,
    e.source,
    e.instantiate_function,
    e.parse_class,
    e.instantiate_class,
    e.backend,
    e.opt_module,
    e.parse_template,
    e.opt_function,
    e.run_pass,
    e.per_module_passes,
    e.perform_pending_instantiations,
    e.run_loop_pass,
    e.code_gen_passes,
    e.code_gen_function,
    e.per_function_passes ]

/-- The assignment `e.<field> = v` to the measurement field that has the name of the kind
`k` (without the suffix `_v`); every other field of `e` is kept. -/
def entry_t.assign_measure (e : entry_t) : measure_kind_t → measure_t → entry_t
  | execute_compiler_v, v => { e with execute_compiler := v }
  | frontend_v, v => { e with frontend := v }
  | source_v, v => { e with source := v }
  | instantiate_function_v, v => { e with instantiate_function := v }
  | parse_class_v, v => { e with parse_class := v }
  | instantiate_class_v, v => { e with instantiate_class := v }
  | backend_v, v => { e with backend := v }
  | opt_module_v, v => { e with opt_module := v }
  | parse_template_v, v => { e with parse_template := v }
  | opt_function_v, v => { e with opt_function := v }
  | run_pass_v, v => { e with run_pass := v }
  | per_module_passes_v, v => { e with per_module_passes := v }
  | perform_pending_instantiations_v, v => { e with perform_pending_instantiations := v }
  | run_loop_pass_v, v => { e with run_loop_pass := v }
  | code_gen_passes_v, v => { e with code_gen_passes := v }
  | code_gen_function_v, v => { e with code_gen_function := v }
  | per_function_passes_v, v => { e with per_function_passes := v }

/-- The control flow of the `switch (m)` statement that `get_measure` and
`get_measure_name` share (the same seventeen case labels in the same order), over the
integer value `v` of `m`: the case label whose `return` is executed, and `none` when no
label matches and control reaches the statement after the switch. -/
def switch_case (v : Nat) : Option measure_kind_t :=
  if v = execute_compiler_v.toNat then some execute_compiler_v
  else if v = frontend_v.toNat then some frontend_v
  else if v = source_v.toNat then some source_v
  else if v = instantiate_function_v.toNat then some instantiate_function_v
  else if v = parse_class_v.toNat then some parse_class_v
  else if v = instantiate_class_v.toNat then some instantiate_class_v
  else if v = backend_v.toNat then some backend_v
  else if v = opt_module_v.toNat then some opt_module_v
  else if v = parse_template_v.toNat then some parse_template_v
  else if v = opt_function_v.toNat then some opt_function_v
  else if v = run_pass_v.toNat then some run_pass_v
  else if v = per_module_passes_v.toNat then some per_module_passes_v
  else if v = perform_pending_instantiations_v.toNat then some perform_pending_instantiations_v
  else if v = run_loop_pass_v.toNat then some run_loop_pass_v
  else if v = code_gen_passes_v.toNat then some code_gen_passes_v
  else if v = code_gen_function_v.toNat then some code_gen_function_v
  else if v = per_function_passes_v.toNat then some per_function_passes_v
  else none

/-- The offsets that the loop of `std::all_of` reads, in order (see `all_of_loop`): one read
`*first` per iteration, the last one being outside the storage when the loop runs past it. -/
def all_of_reads (pred : entry_t → Bool) (last : Nat) : List entry_t → Nat → List Nat
  | [], first => if first = last then [] else [first]
  | e :: storage, first =>
    if first = last then []
    else first :: (if pred e then all_of_reads pred last storage (first + 1) else [])

namespace benchmark_t

/-- The offsets read by the body of the loop of `is_valid` for one `size_id` (see
`is_valid_bucket`): the read of `this->begin(size_id)->size`, then the reads of
`std::all_of`. -/
def is_valid_bucket_reads (b : benchmark_t) (size_id : Nat) : List Nat :=
  b.begin_const size_id ::
    (match b._entries[b.begin_const size_id]? with
     | none => []
     | some e0 =>
       all_of_reads (fun e => e.size == e0.size) (b.end_const size_id)
         (b._entries.drop (b.begin_const size_id)) (b.begin_const size_id))

/-- The offsets read by the loop of `is_valid` (see `is_valid_for`): the loop goes on to the
next `size_id` only when `std::all_of` returned true. -/
def is_valid_for_reads (b : benchmark_t) : (trips : Nat) → (size_id : Nat) → List Nat
  | 0, _ => []
  | trips + 1, size_id =>
    b.is_valid_bucket_reads size_id ++
      (match b.is_valid_bucket size_id with
       | some true => is_valid_for_reads b trips (size_id + 1)
       | _ => [])

/-- The offsets of `_entries` that `is_valid` reads, in order: none when the dimension check
returns, those of the loop otherwise. -/
def is_valid_reads (b : benchmark_t) : List Nat :=
  if b._entries.length = size_wrap (b._iterations * b._size) then []
  else b.is_valid_for_reads b._size 0

end benchmark_t

/-! ## Auxiliary lemmas -/

theorem size_wrap_of_lt {n : Nat} (h : n < SIZE_RANGE) : size_wrap n = n :=
  Nat.mod_eq_of_lt h

theorem size_wrap_lt (n : Nat) : size_wrap n < SIZE_RANGE :=
  Nat.mod_lt _ (by decide)

/-- On a range that lies inside the storage, `std::all_of` is the conjunction of the
predicate over the `n` entries of the range. -/
theorem all_of_loop_eq (pred : entry_t → Bool) :
    ∀ (storage : List entry_t) (first n : Nat), n ≤ storage.length →
      all_of_loop pred (first + n) storage first = some ((storage.take n).all pred)
  | [], first, n, h => by
      have hn : n = 0 := by simpa using h
      subst hn
      simp [all_of_loop]
  | e :: storage, first, 0, _ => by simp [all_of_loop]
  | e :: storage, first, n + 1, h => by
      have ih := all_of_loop_eq pred storage (first + 1) n (by simpa using h)
      have hne : first ≠ first + (n + 1) := by omega
      have hlast : first + 1 + n = first + (n + 1) := by omega
      rw [hlast] at ih
      cases hp : pred e <;> simp [all_of_loop, hne, hp, ih]

/-- As soon as the predicate fails on an entry that the traversal reaches before it reaches
`last`, `std::all_of` is false. -/
theorem all_of_loop_false (pred : entry_t → Bool) (last : Nat) :
    ∀ (storage : List entry_t) (first k : Nat) (e : entry_t), storage[k]? = some e →
      pred e = false → (∀ j, j ≤ k → first + j ≠ last) →
      all_of_loop pred last storage first = some false
  | [], _, _, _, hk, _, _ => by simp at hk
  | x :: storage, first, 0, e, hk, hp, hl => by
      have hx : x = e := by simpa using hk
      subst hx
      have hne : first ≠ last := by simpa using hl 0 (Nat.le_refl 0)
      simp [all_of_loop, hne, hp]
  | x :: storage, first, k + 1, e, hk, hp, hl => by
      have hne : first ≠ last := by simpa using hl 0 (Nat.zero_le _)
      have ih := all_of_loop_false pred last storage (first + 1) k e (by simpa using hk) hp
        (fun j hj => by have := hl (j + 1) (by omega); omega)
      cases hx : pred x <;> simp [all_of_loop, hne, hx, ih]

/-- A traversal of a range that lies inside the storage visits its `n` entries in order. -/
theorem range_loop_eq :
    ∀ (storage : List entry_t) (first n : Nat), n ≤ storage.length →
      range_loop (first + n) storage first = some (storage.take n)
  | [], first, n, h => by
      have hn : n = 0 := by simpa using h
      subst hn
      simp [range_loop]
  | e :: storage, first, 0, _ => by simp [range_loop]
  | e :: storage, first, n + 1, h => by
      have ih := range_loop_eq storage (first + 1) n (by simpa using h)
      have hne : first ≠ first + (n + 1) := by omega
      have hlast : first + 1 + n = first + (n + 1) := by omega
      rw [hlast] at ih
      simp [range_loop, hne, ih]

/-- A traversal that starts where nothing is stored and is not yet at `last` reads outside
the storage. -/
theorem range_loop_nil (first last : Nat) (h : first ≠ last) :
    range_loop last [] first = none := by
  simp [range_loop, h]

namespace benchmark_t

/-- The offset `begin(size_i)` when the product does not leave `std::size_t`. -/
theorem begin_const_eq (b : benchmark_t) (size_i : Nat)
    (h : size_i * b._iterations < SIZE_RANGE) :
    b.begin_const size_i = size_i * b._iterations := by
  unfold begin_const
  exact size_wrap_of_lt h

/-- The offset `end(size_i)` when neither the sum nor the product leaves `std::size_t`. -/
theorem end_const_eq (b : benchmark_t) (size_i : Nat) (h1 : size_i + 1 < SIZE_RANGE)
    (h : (size_i + 1) * b._iterations < SIZE_RANGE) :
    b.end_const size_i = size_i * b._iterations + b._iterations := by
  unfold end_const
  rw [size_wrap_of_lt h1, size_wrap_of_lt h, Nat.succ_mul]

/-- The check of one bucket that lies inside the stored sequence: the reference size is
read from the first entry of the bucket and compared with the `_iterations` entries of the
bucket. -/
theorem is_valid_bucket_eq (b : benchmark_t) (j : Nat)
    (hlen : b._entries.length < SIZE_RANGE) (h0 : 0 < b._iterations)
    (h : (j + 1) * b._iterations ≤ b._entries.length) :
    ∃ e0, b._entries[j * b._iterations]? = some e0 ∧
      b.is_valid_bucket j = some
        (((b._entries.drop (j * b._iterations)).take b._iterations).all
          (fun e => e.size == e0.size)) := by
  have hmul : (j + 1) * b._iterations = j * b._iterations + b._iterations := Nat.succ_mul _ _
  have hj : j + 1 ≤ (j + 1) * b._iterations := Nat.le_mul_of_pos_right _ h0
  have hb : b.begin_const j = j * b._iterations :=
    b.begin_const_eq j (by omega)
  have he : b.end_const j = j * b._iterations + b._iterations :=
    b.end_const_eq j (by omega) (by omega)
  have hlt : j * b._iterations < b._entries.length := by omega
  refine ⟨b._entries[j * b._iterations], List.getElem?_eq_getElem hlt, ?_⟩
  unfold is_valid_bucket all_of
  rw [hb, he, List.getElem?_eq_getElem hlt]
  exact all_of_loop_eq _ _ _ _ (by rw [List.length_drop]; omega)

/-- The check of a bucket is false when a stored entry of the bucket differs in size from
the first entry of the bucket. -/
theorem is_valid_bucket_false (b : benchmark_t) (i d : Nat) (e0 ed : entry_t)
    (hlen : b._entries.length < SIZE_RANGE) (hI : b._iterations < SIZE_RANGE)
    (hd1 : i * b._iterations ≤ d) (hd2 : d < (i + 1) * b._iterations)
    (h0 : b._entries[i * b._iterations]? = some e0) (hd : b._entries[d]? = some ed)
    (hne : ed.size ≠ e0.size) :
    b.is_valid_bucket i = some false := by
  have hmul : (i + 1) * b._iterations = i * b._iterations + b._iterations := Nat.succ_mul _ _
  have hdl : d < b._entries.length := by
    rcases Nat.lt_or_ge d b._entries.length with h | h
    · exact h
    · rw [List.getElem?_eq_none h] at hd; cases hd
  have hpos : 0 < b._iterations := by omega
  have hi : i ≤ i * b._iterations := Nat.le_mul_of_pos_right _ hpos
  have hb : b.begin_const i = i * b._iterations := b.begin_const_eq i (by omega)
  have he : b.end_const i = (i * b._iterations + b._iterations) % SIZE_RANGE := by
    unfold end_const
    rw [size_wrap_of_lt (show i + 1 < SIZE_RANGE by omega), hmul]
    rfl
  unfold is_valid_bucket all_of
  rw [hb, he, h0]
  refine all_of_loop_false _ _ _ _ (d - i * b._iterations) ed ?_ ?_ ?_
  · rw [List.getElem?_drop, ← hd]
    congr 1
    omega
  · simpa using hne
  · intro j hj
    unfold SIZE_RANGE at *
    omega

/-- The loop of `is_valid` returns false when the check of bucket `i` is false and the
checks of the buckets before it complete. -/
theorem is_valid_for_false (b : benchmark_t) (i : Nat)
    (hi : b.is_valid_bucket i = some false) :
    ∀ (trips size_id : Nat), size_id ≤ i → i < size_id + trips →
      (∀ j, size_id ≤ j → j < i → b.is_valid_bucket j ≠ none) →
      b.is_valid_for trips size_id = some false
  | 0, size_id, h1, h2, _ => by omega
  | trips + 1, size_id, h1, h2, hb => by
      by_cases hEq : size_id = i
      · subst hEq
        simp [is_valid_for, hi]
      · have ih := is_valid_for_false b i hi trips (size_id + 1) (by omega) (by omega)
          (fun j hj1 hj2 => hb j (by omega) hj2)
        have hsome := hb size_id (Nat.le_refl _) (by omega)
        cases hv : b.is_valid_bucket size_id with
        | none => exact absurd hv hsome
        | some r => cases r <;> simp [is_valid_for, hv, ih]

/-- The range of a size index whose offsets lie inside the stored sequence is the
`_iterations` stored entries from offset `size_i * _iterations` on; `_size` plays no part. -/
theorem range_for_eq (b : benchmark_t) (size_i : Nat)
    (hlen : b._entries.length < SIZE_RANGE)
    (h : (size_i + 1) * b._iterations ≤ b._entries.length) :
    b.range_for size_i
      = some ((b._entries.drop (size_i * b._iterations)).take b._iterations) := by
  have hmul : (size_i + 1) * b._iterations = size_i * b._iterations + b._iterations :=
    Nat.succ_mul _ _
  rcases Nat.eq_zero_or_pos b._iterations with h0 | h0
  · simp [range_for, begin_const, end_const, h0, size_wrap, range_loop]
    cases b._entries <;> simp [range_loop]
  · have hj : size_i + 1 ≤ (size_i + 1) * b._iterations := Nat.le_mul_of_pos_right _ h0
    have hb : b.begin_const size_i = size_i * b._iterations :=
      b.begin_const_eq size_i (by omega)
    have he : b.end_const size_i = size_i * b._iterations + b._iterations :=
      b.end_const_eq size_i (by omega) (by omega)
    unfold range_for
    rw [hb, he]
    exact range_loop_eq _ _ _ (by rw [List.length_drop]; omega)

end benchmark_t

/-! ### The offsets read by `is_valid` -/

/-- Every offset that `std::all_of` reads lies in the range `[first, last)`. -/
theorem all_of_reads_bounds (pred : entry_t → Bool) :
    ∀ (storage : List entry_t) (first n o : Nat),
      o ∈ all_of_reads pred (first + n) storage first → first ≤ o ∧ o < first + n
  | [], first, n, o, h => by
      by_cases hn : first = first + n
      · simp [all_of_reads, ← hn] at h
      · simp [all_of_reads, hn] at h
        omega
  | e :: storage, first, 0, o, h => by
      simp [all_of_reads] at h
  | e :: storage, first, n + 1, o, h => by
      have hne : first ≠ first + (n + 1) := by omega
      simp only [all_of_reads, if_neg hne, List.mem_cons] at h
      rcases h with h | h
      · omega
      · cases hp : pred e
        · simp [hp] at h
        · rw [hp] at h
          simp only [if_true] at h
          have hlast : first + (n + 1) = first + 1 + n := by omega
          rw [hlast] at h
          have := all_of_reads_bounds pred storage (first + 1) n o h
          omega

/-- The loop of `std::all_of` ends in `none` exactly when one of its reads is outside the
storage. -/
theorem all_of_loop_none_iff (pred : entry_t → Bool) (last : Nat) :
    ∀ (storage : List entry_t) (first : Nat),
      all_of_loop pred last storage first = none ↔
        ∃ o ∈ all_of_reads pred last storage first, first + storage.length ≤ o
  | [], first => by
      by_cases h : first = last <;> simp [all_of_loop, all_of_reads, h]
  | e :: storage, first => by
      by_cases h : first = last
      · simp [all_of_loop, all_of_reads, h]
      · cases hp : pred e
        · simp [all_of_loop, all_of_reads, h, hp]
        · have ih := all_of_loop_none_iff pred last storage (first + 1)
          simp only [all_of_loop, all_of_reads, if_neg h, hp, if_true, ih, List.length_cons,
            List.mem_cons, exists_eq_or_imp]
          constructor
          · rintro ⟨o, ho, hle⟩
            exact Or.inr ⟨o, ho, by omega⟩
          · rintro (hle | ⟨o, ho, hle⟩)
            · omega
            · exact ⟨o, ho, by omega⟩

/-- The call `std::all_of` ends in `none` exactly when one of its reads is outside the
vector. -/
theorem all_of_none_iff (entries : List entry_t) (first last : Nat) (pred : entry_t → Bool) :
    all_of entries first last pred = none ↔
      ∃ o ∈ all_of_reads pred last (entries.drop first) first, entries.length ≤ o := by
  unfold all_of
  rw [all_of_loop_none_iff]
  rcases Nat.le_total first entries.length with h | h
  · have hl : first + (entries.drop first).length = entries.length := by
      rw [List.length_drop]
      omega
    rw [hl]
  · rw [List.drop_eq_nil_of_le h]
    by_cases hfl : first = last
    · simp [all_of_reads, hfl]
    · simp [all_of_reads, hfl, h]

namespace benchmark_t

/-- The check of one bucket ends in `none` exactly when one of its reads is outside the
vector. -/
theorem is_valid_bucket_none_iff (b : benchmark_t) (size_id : Nat) :
    b.is_valid_bucket size_id = none ↔
      ∃ o ∈ b.is_valid_bucket_reads size_id, b._entries.length ≤ o := by
  unfold is_valid_bucket is_valid_bucket_reads
  cases h : b._entries[b.begin_const size_id]? with
  | none =>
    have hle : b._entries.length ≤ b.begin_const size_id := List.getElem?_eq_none_iff.1 h
    simp [hle]
  | some e0 =>
    have hlt : b.begin_const size_id < b._entries.length := by
      by_contra hge
      rw [List.getElem?_eq_none (by omega)] at h
      cases h
    simp only [List.mem_cons, exists_eq_or_imp, all_of_none_iff]
    constructor
    · intro hx
      exact Or.inr hx
    · rintro (hle | hx)
      · omega
      · exact hx

/-- The loop of `is_valid` ends in `none` exactly when one of its reads is outside the
vector. -/
theorem is_valid_for_none_iff (b : benchmark_t) :
    ∀ (trips size_id : Nat),
      b.is_valid_for trips size_id = none ↔
        ∃ o ∈ b.is_valid_for_reads trips size_id, b._entries.length ≤ o
  | 0, size_id => by simp [is_valid_for, is_valid_for_reads]
  | trips + 1, size_id => by
      have hb := b.is_valid_bucket_none_iff size_id
      have ih := is_valid_for_none_iff b trips (size_id + 1)
      cases hv : b.is_valid_bucket size_id with
      | none =>
        rw [hv] at hb
        obtain ⟨o, ho, hle⟩ := hb.1 rfl
        simp only [is_valid_for, is_valid_for_reads, hv, List.append_nil, true_iff]
        exact ⟨o, ho, hle⟩
      | some r =>
        rw [hv] at hb
        have hin : ∀ o ∈ b.is_valid_bucket_reads size_id, ¬ b._entries.length ≤ o := by
          intro o ho hle
          have := hb.2 ⟨o, ho, hle⟩
          cases this
        cases r
        · simp only [is_valid_for, is_valid_for_reads, hv, List.append_nil]
          constructor
          · intro hx
            cases hx
          · rintro ⟨o, ho, hle⟩
            exact absurd hle (hin o ho)
        · simp only [is_valid_for, is_valid_for_reads, hv, ih, List.mem_append]
          constructor
          · rintro ⟨o, ho, hle⟩
            exact ⟨o, Or.inr ho, hle⟩
          · rintro ⟨o, ho | ho, hle⟩
            · exact absurd hle (hin o ho)
            · exact ⟨o, ho, hle⟩

/-- The result of `is_valid` is `none` exactly when one of its reads is outside the
vector. -/
theorem is_valid_none_iff (b : benchmark_t) :
    b.is_valid = none ↔ ∃ o ∈ b.is_valid_reads, b._entries.length ≤ o := by
  unfold is_valid is_valid_reads
  split
  · simp
  · exact b.is_valid_for_none_iff _ _

end benchmark_t

namespace benchmark_t

/-- The offsets `begin(j)` and `end(j)` of a bucket that ends inside the stored sequence. -/
theorem begin_end_const_eq (b : benchmark_t) (j : Nat)
    (hlen : b._entries.length < SIZE_RANGE)
    (h : (j + 1) * b._iterations ≤ b._entries.length) :
    b.begin_const j = j * b._iterations ∧
      b.end_const j = j * b._iterations + b._iterations := by
  have hmul : (j + 1) * b._iterations = j * b._iterations + b._iterations := Nat.succ_mul _ _
  rcases Nat.eq_zero_or_pos b._iterations with h0 | h0
  · simp [begin_const, end_const, h0, size_wrap]
  · have hj : j + 1 ≤ (j + 1) * b._iterations := Nat.le_mul_of_pos_right _ h0
    exact ⟨b.begin_const_eq j (by omega), b.end_const_eq j (by omega) (by omega)⟩

/-- In `std::size_t` arithmetic `end(i)` and `begin(i + 1)` are the same offset. -/
theorem end_const_eq_begin_const_succ (b : benchmark_t) (i : Nat) :
    b.end_const i = b.begin_const (i + 1) := by
  unfold end_const begin_const size_wrap
  exact Nat.mod_mul_mod

/-- The reads of the check of a bucket that ends inside the stored sequence: the offset
`j * _iterations` of its first entry, and offsets of the bucket. -/
theorem is_valid_bucket_reads_mem (b : benchmark_t) (j o : Nat)
    (hlen : b._entries.length < SIZE_RANGE)
    (h : (j + 1) * b._iterations ≤ b._entries.length)
    (ho : o ∈ b.is_valid_bucket_reads j) :
    o = j * b._iterations ∨ (j * b._iterations ≤ o ∧ o < (j + 1) * b._iterations) := by
  have hmul : (j + 1) * b._iterations = j * b._iterations + b._iterations := Nat.succ_mul _ _
  obtain ⟨hb, he⟩ := b.begin_end_const_eq j hlen h
  unfold is_valid_bucket_reads at ho
  rw [hb, he] at ho
  rcases List.mem_cons.1 ho with ho | ho
  · exact Or.inl ho
  · cases hg : b._entries[j * b._iterations]? with
    | none =>
      rw [hg] at ho
      cases ho
    | some e0 =>
      rw [hg] at ho
      have := all_of_reads_bounds _ _ _ _ _ ho
      exact Or.inr ⟨this.1, by omega⟩

/-- The reads of the loop of `is_valid` on a series that stores more than
`_size * _iterations` entries: each is the first offset of a bucket below `_size` or an
offset of such a bucket. -/
theorem is_valid_for_reads_mem (b : benchmark_t) (hlen : b._entries.length < SIZE_RANGE)
    (h : b._size * b._iterations ≤ b._entries.length) :
    ∀ (trips size_id o : Nat), size_id + trips ≤ b._size →
      o ∈ b.is_valid_for_reads trips size_id →
      ∃ i, i < b._size ∧
        (o = i * b._iterations ∨ (i * b._iterations ≤ o ∧ o < (i + 1) * b._iterations))
  | 0, _, _, _, ho => by simp [is_valid_for_reads] at ho
  | trips + 1, size_id, o, hs, ho => by
      have hle : (size_id + 1) * b._iterations ≤ b._size * b._iterations :=
        Nat.mul_le_mul_right _ (by omega)
      unfold is_valid_for_reads at ho
      rcases List.mem_append.1 ho with ho | ho
      · exact ⟨size_id, by omega, b.is_valid_bucket_reads_mem size_id o hlen (by omega) ho⟩
      · cases hv : b.is_valid_bucket size_id with
        | none =>
          rw [hv] at ho
          cases ho
        | some r =>
          rw [hv] at ho
          cases r
          · cases ho
          · exact is_valid_for_reads_mem b hlen h trips (size_id + 1) o (by omega) ho

/-- On a series that stores at least `_size * _iterations` entries every read of `is_valid`
is the first offset of a bucket below `_size` or an offset of such a bucket, and is below
the stored length. -/
theorem is_valid_reads_mem (b : benchmark_t) (hlen : b._entries.length < SIZE_RANGE)
    (h : b._size * b._iterations ≤ b._entries.length) (o : Nat) (ho : o ∈ b.is_valid_reads) :
    o < b._entries.length ∧
      ∃ i, i < b._size ∧
        (o = i * b._iterations ∨ (i * b._iterations ≤ o ∧ o < (i + 1) * b._iterations)) := by
  unfold is_valid_reads at ho
  split at ho
  · cases ho
  · rename_i hne
    have hw : size_wrap (b._iterations * b._size) = b._size * b._iterations := by
      rw [Nat.mul_comm]
      exact size_wrap_of_lt (by omega)
    rw [hw] at hne
    obtain ⟨i, hi, hoi⟩ := b.is_valid_for_reads_mem hlen h b._size 0 o (by omega) ho
    have hle : (i + 1) * b._iterations ≤ b._size * b._iterations :=
      Nat.mul_le_mul_right _ hi
    have hmul : (i + 1) * b._iterations = i * b._iterations + b._iterations :=
      Nat.succ_mul _ _
    refine ⟨?_, i, hi, hoi⟩
    rcases hoi with hoi | hoi <;> omega

end benchmark_t

/-- Successive blocks of `n` entries, put end to end, are an initial segment of the list. -/
theorem flatten_blocks (entries : List entry_t) (n : Nat) :
    ∀ count : Nat,
      ((List.range count).map (fun i => (entries.drop (i * n)).take n)).flatten
        = entries.take (count * n)
  | 0 => by simp
  | count + 1 => by
      rw [List.range_succ, List.map_append, List.flatten_append, flatten_blocks entries n count,
        Nat.succ_mul, List.take_add]
      simp

namespace benchmark_t

/-- The check of a bucket that ends before the end of the stored sequence returns a boolean,
true exactly when the entries of the bucket carry one problem size. -/
theorem is_valid_bucket_iff (b : benchmark_t) (j : Nat)
    (hlen : b._entries.length < SIZE_RANGE)
    (h : (j + 1) * b._iterations < b._entries.length) :
    ∃ r, b.is_valid_bucket j = some r ∧
      (r = true ↔ ∀ k1, k1 < b._iterations → ∀ k2, k2 < b._iterations →
        (b._entries[j * b._iterations + k1]?).map entry_t.size
          = (b._entries[j * b._iterations + k2]?).map entry_t.size) := by
  have hmul : (j + 1) * b._iterations = j * b._iterations + b._iterations := Nat.succ_mul _ _
  obtain ⟨hb, he⟩ := b.begin_end_const_eq j hlen (by omega)
  have hlt : j * b._iterations < b._entries.length := by omega
  have hfirst : b._entries[j * b._iterations]? = some (b._entries[j * b._iterations]) :=
    List.getElem?_eq_getElem hlt
  refine ⟨((b._entries.drop (j * b._iterations)).take b._iterations).all
    (fun e => e.size == (b._entries[j * b._iterations]).size), ?_, ?_⟩
  · unfold is_valid_bucket all_of
    rw [hb, he, hfirst]
    exact all_of_loop_eq _ _ _ _ (by rw [List.length_drop]; omega)
  · rw [List.all_eq_true]
    constructor
    · intro hall k1 hk1 k2 hk2
      have hsize : ∀ k, k < b._iterations →
          (b._entries[j * b._iterations + k]?).map entry_t.size
            = some (b._entries[j * b._iterations]).size := by
        intro k hk
        have hkl : j * b._iterations + k < b._entries.length := by omega
        have hmem : b._entries[j * b._iterations + k]
            ∈ (b._entries.drop (j * b._iterations)).take b._iterations := by
          rw [List.mem_iff_getElem?]
          refine ⟨k, ?_⟩
          rw [List.getElem?_take_of_lt hk, List.getElem?_drop, List.getElem?_eq_getElem hkl]
        have := hall _ hmem
        rw [List.getElem?_eq_getElem hkl]
        simpa using this
      rw [hsize k1 hk1, hsize k2 hk2]
    · intro hagree x hx
      rw [List.mem_iff_getElem?] at hx
      obtain ⟨k, hk⟩ := hx
      have hkI : k < b._iterations := by
        by_contra hge
        rw [List.getElem?_eq_none (by rw [List.length_take]; omega)] at hk
        cases hk
      rw [List.getElem?_take_of_lt hkI, List.getElem?_drop] at hk
      have := hagree k hkI 0 (by omega)
      rw [hk, Nat.add_zero, hfirst] at this
      simpa using this

/-- The loop of `is_valid` returns a boolean when the check of every bucket it visits does:
true exactly when every one of these checks is true. -/
theorem is_valid_for_iff (b : benchmark_t) (P : Nat → Prop) :
    ∀ (trips size_id : Nat),
      (∀ j, size_id ≤ j → j < size_id + trips →
        ∃ r, b.is_valid_bucket j = some r ∧ (r = true ↔ P j)) →
      ∃ r, b.is_valid_for trips size_id = some r ∧
        (r = true ↔ ∀ j, size_id ≤ j → j < size_id + trips → P j)
  | 0, size_id, _ => by
      refine ⟨true, rfl, ?_⟩
      simp only [true_iff]
      intro j h1 h2
      omega
  | trips + 1, size_id, hb => by
      obtain ⟨r0, hr0, hP0⟩ := hb size_id (Nat.le_refl _) (by omega)
      obtain ⟨r, hr, hP⟩ := is_valid_for_iff b P trips (size_id + 1)
        (fun j h1 h2 => hb j (by omega) (by omega))
      cases r0
      · refine ⟨false, by simp [is_valid_for, hr0], ?_⟩
        constructor
        · intro hx
          cases hx
        · intro hall
          have := hP0.2 (hall size_id (Nat.le_refl _) (by omega))
          cases this
      · refine ⟨r, by simp [is_valid_for, hr0, hr], ?_⟩
        rw [hP]
        constructor
        · intro hall j h1 h2
          rcases Nat.eq_or_lt_of_le h1 with hEq | hlt
          · rw [← hEq]
            exact hP0.1 rfl
          · exact hall j hlt (by omega)
        · intro hall j h1 h2
          exact hall j (by omega) (by omega)

/-- On a series that stores more than `_size * _iterations` entries `is_valid` returns a
boolean, true exactly when every bucket carries one problem size. -/
theorem is_valid_iff_of_longer (b : benchmark_t) (hlen : b._entries.length < SIZE_RANGE)
    (hlong : b._size * b._iterations < b._entries.length) :
    ∃ r, b.is_valid = some r ∧ (r = true ↔ b.bucket_sizes_agree) := by
  have hw : size_wrap (b._iterations * b._size) = b._size * b._iterations := by
    rw [Nat.mul_comm]
    exact size_wrap_of_lt (by omega)
  have hne : ¬ b._entries.length = size_wrap (b._iterations * b._size) := by
    rw [hw]
    omega
  obtain ⟨r, hr, hP⟩ := b.is_valid_for_iff
    (fun i => ∀ k1, k1 < b._iterations → ∀ k2, k2 < b._iterations →
      (b._entries[i * b._iterations + k1]?).map entry_t.size
        = (b._entries[i * b._iterations + k2]?).map entry_t.size)
    b._size 0
    (fun j _ hj => b.is_valid_bucket_iff j hlen (by
      have : (j + 1) * b._iterations ≤ b._size * b._iterations :=
        Nat.mul_le_mul_right _ (by omega)
      omega))
  refine ⟨r, ?_, ?_⟩
  · unfold is_valid
    rw [if_neg hne]
    exact hr
  · rw [hP]
    unfold bucket_sizes_agree
    constructor
    · intro hall i hi
      exact hall i (Nat.zero_le _) (by omega)
    · intro hall i _ hi
      exact hall i (by omega)

/-- The rectangular-grid condition only looks at the first `_size * _iterations` stored
entries. -/
theorem bucket_sizes_agree_congr (b b2 : benchmark_t) (hS : b2._size = b._size)
    (hI : b2._iterations = b._iterations)
    (htake : b2._entries.take (b._size * b._iterations)
      = b._entries.take (b._size * b._iterations)) :
    b2.bucket_sizes_agree ↔ b.bucket_sizes_agree := by
  have hget : ∀ o, o < b._size * b._iterations → b2._entries[o]? = b._entries[o]? := by
    intro o ho
    rw [← List.getElem?_take_of_lt ho, htake, List.getElem?_take_of_lt ho]
  have hoff : ∀ i, i < b._size → ∀ k, k < b._iterations →
      i * b._iterations + k < b._size * b._iterations := by
    intro i hi k hk
    have h1 : (i + 1) * b._iterations ≤ b._size * b._iterations :=
      Nat.mul_le_mul_right _ hi
    have h2 : (i + 1) * b._iterations = i * b._iterations + b._iterations :=
      Nat.succ_mul _ _
    omega
  unfold bucket_sizes_agree
  rw [hS, hI]
  constructor
  · intro h i hi j hj k hk
    rw [← hget _ (hoff i hi j hj), ← hget _ (hoff i hi k hk)]
    exact h i hi j hj k hk
  · intro h i hi j hj k hk
    rw [hget _ (hoff i hi j hj), hget _ (hoff i hi k hk)]
    exact h i hi j hj k hk

end benchmark_t

/-! ## The claims -/

/-- Claim C1, evaluated on the code: the series of shape `(2, 3)` with the six sizes
`10, 10, 10, 20, 20, 20` has exactly `2 * 3` entries and one size per bucket, and
`is_valid` returns false on it, because the dimension check returns false when the
stored length is equal to `_iterations * _size`. -/
theorem C1_is_valid_false_on_well_formed_series :
    (sample_series 2 3 [10, 10, 10, 20, 20, 20])._entries.length = 2 * 3 ∧
      (sample_series 2 3 [10, 10, 10, 20, 20, 20]).bucket_sizes_agree ∧
      (sample_series 2 3 [10, 10, 10, 20, 20, 20]).is_valid = some false := by
  decide

/-- Claim C2, evaluated on the code: the series of shape `(1, 1)` with two entries has a
stored length different from `1 * 1` and `is_valid` returns true on it; on the series of
shape `(2, 3)` with the five sizes `10, 10, 10, 20, 20` the check of bucket 1 reads offset 5,
outside the stored sequence. -/
theorem C2_is_valid_on_wrong_length :
    (sample_series 1 1 [10, 10])._entries.length ≠ 1 * 1 ∧
      (sample_series 1 1 [10, 10]).is_valid = some true ∧
      (sample_series 2 3 [10, 10, 10, 20, 20])._entries.length ≠ 2 * 3 ∧
      (sample_series 2 3 [10, 10, 10, 20, 20]).is_valid = none := by
  decide

/-- Claim C3: if two stored entries at flat offsets `a` and `c` of one bucket `i < _size`,
that is offsets within `[i * _iterations, (i + 1) * _iterations)`, carry different problem
sizes, then `is_valid` returns false, whatever the length of the stored sequence. -/
theorem C3_is_valid_false_on_mixed_bucket (b : benchmark_t) (i a c : Nat) (ea ec : entry_t)
    (hlen : b._entries.length < SIZE_RANGE) (hI : b._iterations < SIZE_RANGE)
    (hi : i < b._size)
    (ha1 : i * b._iterations ≤ a) (ha2 : a < (i + 1) * b._iterations)
    (hc1 : i * b._iterations ≤ c) (hc2 : c < (i + 1) * b._iterations)
    (hea : b._entries[a]? = some ea) (hec : b._entries[c]? = some ec)
    (hne : ea.size ≠ ec.size) :
    b.is_valid = some false := by
  have hmul : (i + 1) * b._iterations = i * b._iterations + b._iterations := Nat.succ_mul _ _
  have hal : a < b._entries.length := by
    rcases Nat.lt_or_ge a b._entries.length with h | h
    · exact h
    · rw [List.getElem?_eq_none h] at hea; cases hea
  have hpos : 0 < b._iterations := by omega
  have hfirst : i * b._iterations < b._entries.length := by omega
  have hbucket : b.is_valid_bucket i = some false := by
    by_cases hsame : ea.size = (b._entries[i * b._iterations]).size
    · exact b.is_valid_bucket_false i c _ ec hlen hI hc1 hc2
        (List.getElem?_eq_getElem hfirst) hec (fun h => hne (hsame.trans h.symm))
    · exact b.is_valid_bucket_false i a _ ea hlen hI ha1 ha2
        (List.getElem?_eq_getElem hfirst) hea hsame
  unfold benchmark_t.is_valid
  split
  · rfl
  · refine b.is_valid_for_false i hbucket b._size 0 (Nat.zero_le _) (by omega) ?_
    intro j _ hji
    have hle : (j + 1) * b._iterations ≤ i * b._iterations :=
      Nat.mul_le_mul_right _ hji
    obtain ⟨e0, _, hv⟩ := b.is_valid_bucket_eq j hlen hpos (by omega)
    rw [hv]
    exact Option.some_ne_none _

/-- Claim C3 on the series of shape `(2, 3)` with the sizes `10, 99, 10, 20, 20, 20`:
offsets 0 and 1 of bucket 0 differ. -/
theorem C3_is_valid_false_on_mixed_bucket_witness :
    (sample_series 2 3 [10, 99, 10, 20, 20, 20]).is_valid = some false :=
  C3_is_valid_false_on_mixed_bucket (sample_series 2 3 [10, 99, 10, 20, 20, 20]) 0 0 1
    (sample_entry 10) (sample_entry 99) (by decide) (by decide) (by decide) (by decide)
    (by decide) (by decide) (by decide) (by decide) (by decide) (by decide)

/-- Claim C4: when `size_index * _iterations + iteration_index` is below the stored length,
`operator()` returns the stored entry at that flat offset, and the const and non-const
overloads agree. -/
theorem C4_operator_call_reads_flat_offset (b : benchmark_t)
    (size_index iteration_index : Nat) (hlen : b._entries.length < SIZE_RANGE)
    (h : size_index * b._iterations + iteration_index < b._entries.length) :
    b.operator_call size_index iteration_index
        = some (b._entries.get ⟨size_index * b._iterations + iteration_index, h⟩) ∧
      b.operator_call_const size_index iteration_index
        = b.operator_call size_index iteration_index := by
  have h1 : size_wrap (size_index * b._iterations) = size_index * b._iterations :=
    size_wrap_of_lt (by omega)
  have h2 : size_wrap (size_index * b._iterations + iteration_index)
      = size_index * b._iterations + iteration_index := size_wrap_of_lt (by omega)
  refine ⟨?_, rfl⟩
  unfold benchmark_t.operator_call
  rw [h1, h2, List.getElem?_eq_getElem h]
  rfl

/-- Claim C4 on a series of shape `(2, 3)` with six entries: `at(1, 2)` is the entry at
offset `1 * 3 + 2 = 5`, the last entry of bucket 1. -/
theorem C4_operator_call_reads_flat_offset_witness :
    (sample_series 2 3 [10, 11, 12, 20, 21, 22]).operator_call 1 2 = some (sample_entry 22) ∧
      (sample_series 2 3 [10, 11, 12, 20, 21, 22]).operator_call_const 1 2
        = (sample_series 2 3 [10, 11, 12, 20, 21, 22]).operator_call 1 2 :=
  C4_operator_call_reads_flat_offset (sample_series 2 3 [10, 11, 12, 20, 21, 22]) 1 2
    (by decide) (by decide)

/-- Claim C5: on a series whose stored sequence has length `_size * _iterations`, the range
of a size index below `_size` consists of exactly `_iterations` entries, the stored entries
at the flat offsets `size_index * _iterations + k` for `k < _iterations`, in that order; the
const and non-const overloads give the same range. -/
theorem C5_range_for_is_bucket (b : benchmark_t) (size_index : Nat)
    (hlen : b._entries.length < SIZE_RANGE)
    (hshape : b._entries.length = b._size * b._iterations)
    (hi : size_index < b._size) :
    ∃ r, b.range_for size_index = some r ∧ b.range_for_mut size_index = some r ∧
      r.length = b._iterations ∧
      ∀ k, k < b._iterations →
        size_index * b._iterations + k < b._entries.length ∧
          r[k]? = b._entries[size_index * b._iterations + k]? := by
  have hle : (size_index + 1) * b._iterations ≤ b._size * b._iterations :=
    Nat.mul_le_mul_right _ hi
  have hmul : (size_index + 1) * b._iterations
      = size_index * b._iterations + b._iterations := Nat.succ_mul _ _
  have hr := b.range_for_eq size_index hlen (by omega)
  refine ⟨_, hr, hr, ?_, ?_⟩
  · rw [List.length_take, List.length_drop]
    omega
  · intro k hk
    refine ⟨by omega, ?_⟩
    rw [List.getElem?_take_of_lt hk, List.getElem?_drop]

/-- Claim C5 on the series of shape `(2, 3)` with six entries and the size index 1. -/
theorem C5_range_for_is_bucket_witness :
    ∃ r, (sample_series 2 3 [10, 11, 12, 20, 21, 22]).range_for 1 = some r ∧
      (sample_series 2 3 [10, 11, 12, 20, 21, 22]).range_for_mut 1 = some r ∧
      r.length = 3 ∧
      ∀ k, k < 3 →
        1 * 3 + k < 6 ∧
          r[k]? = (sample_series 2 3 [10, 11, 12, 20, 21, 22])._entries[1 * 3 + k]? :=
  C5_range_for_is_bucket (sample_series 2 3 [10, 11, 12, 20, 21, 22]) 1
    (by decide) (by decide) (by decide)

/-- Claim C6 as stated fails: on the series declared with `_size = 2`, `_iterations = 3`
that stores nine entries, `begin(2)` and `end(2)` are the offsets 6 and 9 and the range of
size index 2 is the three stored entries at offsets 6, 7, 8, not an error. -/
theorem C6_range_for_beyond_size_counterexample :
    (sample_series 2 3 [10, 10, 10, 20, 20, 20, 30, 31, 32])._size ≤ 2 ∧
      (sample_series 2 3 [10, 10, 10, 20, 20, 20, 30, 31, 32]).begin_const 2 = 6 ∧
      (sample_series 2 3 [10, 10, 10, 20, 20, 20, 30, 31, 32]).end_const 2 = 9 ∧
      (sample_series 2 3 [10, 10, 10, 20, 20, 20, 30, 31, 32]).range_for 2
        = some [sample_entry 30, sample_entry 31, sample_entry 32] := by
  decide

/-- Claim C6, amended: `begin` and `end` do not compare `size_index` with `_size`.  For a
size index `_size ≤ size_index` the range is the `_iterations` stored entries from offset
`size_index * _iterations` on whenever these offsets lie inside the stored sequence; when
the stored sequence has length exactly `_size * _iterations` and `_iterations` is positive,
the traversal of the range reads outside the stored sequence. -/
theorem C6_range_for_beyond_size (b : benchmark_t) (size_index : Nat)
    (hlen : b._entries.length < SIZE_RANGE) (hS : b._size ≤ size_index) :
    ((size_index + 1) * b._iterations ≤ b._entries.length →
        b.range_for size_index
          = some ((b._entries.drop (size_index * b._iterations)).take b._iterations)) ∧
      (b._entries.length = b._size * b._iterations → 0 < b._iterations →
        (size_index + 1) * b._iterations < SIZE_RANGE →
        b.range_for size_index = none) := by
  refine ⟨b.range_for_eq size_index hlen, ?_⟩
  intro hshape h0 hno
  have hmul : (size_index + 1) * b._iterations
      = size_index * b._iterations + b._iterations := Nat.succ_mul _ _
  have hle : b._size * b._iterations ≤ size_index * b._iterations :=
    Nat.mul_le_mul_right _ hS
  have hj : size_index + 1 ≤ (size_index + 1) * b._iterations :=
    Nat.le_mul_of_pos_right _ h0
  have hb : b.begin_const size_index = size_index * b._iterations :=
    b.begin_const_eq size_index (by omega)
  have he : b.end_const size_index = size_index * b._iterations + b._iterations :=
    b.end_const_eq size_index (by omega) hno
  unfold benchmark_t.range_for
  rw [hb, he, List.drop_eq_nil_of_le (by omega)]
  exact range_loop_nil _ _ (by omega)

/-- Claim C6, amended, on the series declared `(2, 3)`: with nine stored entries the range
of size index 2 is the last three entries, with six stored entries its traversal reads
outside the stored sequence. -/
theorem C6_range_for_beyond_size_witness :
    (sample_series 2 3 [10, 10, 10, 20, 20, 20, 30, 31, 32]).range_for 2
        = some [sample_entry 30, sample_entry 31, sample_entry 32] ∧
      (sample_series 2 3 [10, 10, 10, 20, 20, 20]).range_for 2 = none :=
  ⟨(C6_range_for_beyond_size (sample_series 2 3 [10, 10, 10, 20, 20, 20, 30, 31, 32]) 2
      (by decide) (by decide)).1 (by decide),
    (C6_range_for_beyond_size (sample_series 2 3 [10, 10, 10, 20, 20, 20]) 2
      (by decide) (by decide)).2 (by decide) (by decide) (by decide)⟩

/-- Claim C7 as stated fails: on the series of shape `(2, 3)` with six entries,
`at(0, 3)` has `iteration_index = 3 ≥ _iterations` and returns the entry at offset 3, the
first entry of bucket 1. -/
theorem C7_operator_call_beyond_iterations_counterexample :
    (sample_series 2 3 [10, 11, 12, 20, 21, 22])._iterations ≤ 3 ∧
      (sample_series 2 3 [10, 11, 12, 20, 21, 22]).operator_call 0 3
        = some (sample_entry 20) ∧
      (sample_series 2 3 [10, 11, 12, 20, 21, 22]).operator_call_const 0 3
        = some (sample_entry 20) := by
  decide

/-- Claim C7, amended: `operator()` compares neither `size_index` with `_size` nor
`iteration_index` with `_iterations`.  It reads outside the stored sequence exactly when
the flat offset `size_index * _iterations + iteration_index`, computed in `std::size_t`, is
not below the stored length, and an iteration index `_iterations + k` designates the same
element as the index `k` of the next bucket. -/
theorem C7_operator_call_checks_offset_only (b : benchmark_t)
    (size_index iteration_index : Nat) :
    (b.operator_call size_index iteration_index = none ↔
        b._entries.length
          ≤ size_wrap (size_wrap (size_index * b._iterations) + iteration_index)) ∧
      b.operator_call_const size_index iteration_index
        = b.operator_call size_index iteration_index ∧
      b.operator_call size_index (b._iterations + iteration_index)
        = b.operator_call (size_index + 1) iteration_index := by
  refine ⟨?_, rfl, ?_⟩
  · unfold benchmark_t.operator_call
    exact List.getElem?_eq_none_iff
  · unfold benchmark_t.operator_call size_wrap SIZE_RANGE
    rw [Nat.succ_mul]
    congr 1
    omega

/-- Claim C8: the validity of an entry, `operator bool`, is true exactly when its `size`
differs from the sentinel `nsize = -1`, whatever the measurement fields hold: false for the
size `-1`, true for the sizes `0` and `-2`. -/
theorem C8_operator_bool_iff_size_ne_nsize (e : entry_t) :
    (e.operator_bool = true ↔ e.size ≠ entry_t.nsize) ∧
      entry_t.nsize = -1 ∧
      ({ e with size := -1 } : entry_t).operator_bool = false ∧
      ({ e with size := 0 } : entry_t).operator_bool = true ∧
      ({ e with size := -2 } : entry_t).operator_bool = true := by
  refine ⟨?_, rfl, ?_, ?_, ?_⟩
  · simp [entry_t.operator_bool]
  · simp [entry_t.operator_bool, entry_t.nsize]
  · simp [entry_t.operator_bool, entry_t.nsize]
  · simp [entry_t.operator_bool, entry_t.nsize]

/-- Claim C9: for each of the seventeen kinds `get_measure` returns the field of the entry
that has the name of the kind; the results over `measure_kind_iterable` are the seventeen
fields in declaration order; assigning the field named by a kind `k2` changes the result
for `k2` and for no other kind; on an entry with pairwise distinct measurement fields
`get_measure e` is injective; and the result does not depend on `e.size`. -/
theorem C9_get_measure_reads_named_field (e : entry_t) :
    (get_measure e execute_compiler_v = e.execute_compiler ∧
      get_measure e frontend_v = e.frontend ∧
      get_measure e source_v = e.source ∧
      get_measure e instantiate_function_v = e.instantiate_function ∧
      get_measure e parse_class_v = e.parse_class ∧
      get_measure e instantiate_class_v = e.instantiate_class ∧
      get_measure e backend_v = e.backend ∧
      get_measure e opt_module_v = e.opt_module ∧
      get_measure e parse_template_v = e.parse_template ∧
      get_measure e opt_function_v = e.opt_function ∧
      get_measure e run_pass_v = e.run_pass ∧
      get_measure e per_module_passes_v = e.per_module_passes ∧
      get_measure e perform_pending_instantiations_v = e.perform_pending_instantiations ∧
      get_measure e run_loop_pass_v = e.run_loop_pass ∧
      get_measure e code_gen_passes_v = e.code_gen_passes ∧
      get_measure e code_gen_function_v = e.code_gen_function ∧
      get_measure e per_function_passes_v = e.per_function_passes) ∧
      measure_kind_iterable.map (get_measure e) = e.measures ∧
      (∀ (k1 k2 : measure_kind_t) (v : measure_t),
        get_measure (e.assign_measure k2 v) k1 = if k1 = k2 then v else get_measure e k1) ∧
      (e.measures.Nodup → Function.Injective (get_measure e)) ∧
      (∀ (s : Int) (k : measure_kind_t),
        get_measure ({ e with size := s } : entry_t) k = get_measure e k) := by
  refine ⟨⟨rfl, rfl, rfl, rfl, rfl, rfl, rfl, rfl, rfl, rfl, rfl, rfl, rfl, rfl, rfl, rfl,
    rfl⟩, rfl, ?_, ?_, ?_⟩
  · intro k1 k2 v
    cases k1 <;> cases k2 <;> rfl
  · intro hnodup k1 k2 h
    have hmap : (measure_kind_iterable.map (get_measure e)).Nodup := hnodup
    have hmem : ∀ k : measure_kind_t, k ∈ measure_kind_iterable := by
      intro k
      cases k <;> decide
    exact List.inj_on_of_nodup_map hmap (hmem k1) (hmem k2) h
  · intro s k
    cases k <;> rfl

/-- Claim C10: `get_measure_name` returns a non-empty label for each of the seventeen
kinds, the labels of two different kinds are different, and the label of
`per_function_passes_v` is "Per Function Passes". -/
theorem C10_get_measure_name_labels :
    (∀ k : measure_kind_t, get_measure_name k ≠ "" ∧ 0 < (get_measure_name k).length) ∧
      Function.Injective get_measure_name ∧
      get_measure_name per_function_passes_v = "Per Function Passes" := by
  refine ⟨?_, ?_, rfl⟩
  · intro k
    cases k <;> decide
  · intro k1 k2 h
    cases k1 <;> cases k2 <;> first
      | rfl
      | exact absurd h (by decide)

/-- Claim C11: `measure_kind_iterable` has exactly 17 elements, no duplicates, contains
every enumerator of `measure_kind_t`, and lists them in declaration order: its element at
position `n < 17` is the kind whose enumerator value is `n`, `execute_compiler_v` first and
`per_function_passes_v` last. -/
theorem C11_measure_kind_iterable_canonical :
    measure_kind_iterable.length = 17 ∧
      measure_kind_iterable.Nodup ∧
      (∀ k : measure_kind_t, k ∈ measure_kind_iterable) ∧
      measure_kind_iterable.map measure_kind_t.toNat = List.range 17 ∧
      (∀ k : measure_kind_t, measure_kind_iterable[k.toNat]? = some k) ∧
      (∀ n, n < 17 → ∃ k, measure_kind_iterable[n]? = some k ∧ k.toNat = n) ∧
      measure_kind_iterable.head? = some execute_compiler_v ∧
      measure_kind_iterable.getLast? = some per_function_passes_v := by
  refine ⟨rfl, by decide, ?_, by decide, ?_, ?_, rfl, rfl⟩
  · intro k
    cases k <;> decide
  · intro k
    cases k <;> rfl
  · intro n hn
    interval_cases n <;> exact ⟨_, rfl, rfl⟩

/-- Claim C12, evaluated on the code: on the series built by the three-argument constructor
with `_size = 1`, `_iterations = 1` (no entries) `is_valid` reads offset 0 of the empty
vector, and on the series of shape `(2, 3)` with the five sizes `10, 10, 10, 20, 20` it
reads offset 5; in both cases the read is outside the stored sequence and no boolean
results. -/
theorem C12_is_valid_reads_outside_storage :
    (benchmark_t.empty "series" 1 1)._entries.length = 0 ∧
      (benchmark_t.empty "series" 1 1).is_valid_reads = [0] ∧
      (benchmark_t.empty "series" 1 1).is_valid = none ∧
      (sample_series 2 3 [10, 10, 10, 20, 20])._entries.length = 5 ∧
      (sample_series 2 3 [10, 10, 10, 20, 20]).is_valid_reads = [0, 0, 1, 2, 3, 3, 4, 5] ∧
      (sample_series 2 3 [10, 10, 10, 20, 20]).is_valid = none := by
  decide

/-- Claim C13: on a series whose stored sequence has length `_size * _iterations` the ranges
of the size indices `0, ..., _size - 1` tile the storage in size-major order: `begin(0)` is
the start, `end(i)` is `begin(i + 1)`, `end(_size - 1)` is the end of the stored sequence,
the concatenation of the `_size` ranges is the stored sequence, and every stored offset
lies in the range of exactly one size index. -/
theorem C13_ranges_tile_storage (b : benchmark_t)
    (hlen : b._entries.length < SIZE_RANGE)
    (hshape : b._entries.length = b._size * b._iterations) :
    b.begin_const 0 = 0 ∧
      (∀ i, b.end_const i = b.begin_const (i + 1)) ∧
      (0 < b._size → b.end_const (b._size - 1) = b._entries.length) ∧
      (∃ rs : List (List entry_t), rs.length = b._size ∧
        (∀ i, i < b._size → b.range_for i = rs[i]?) ∧ rs.flatten = b._entries) ∧
      (∀ o, o < b._entries.length →
        ∃! i, i < b._size ∧ b.begin_const i ≤ o ∧ o < b.end_const i) := by
  have hbucket : ∀ i, i < b._size → (i + 1) * b._iterations ≤ b._entries.length := by
    intro i hi
    rw [hshape]
    exact Nat.mul_le_mul_right _ hi
  refine ⟨?_, b.end_const_eq_begin_const_succ, ?_, ?_, ?_⟩
  · simp [benchmark_t.begin_const, size_wrap]
  · intro hS
    have he := (b.begin_end_const_eq (b._size - 1) hlen (hbucket _ (by omega))).2
    have hmul : (b._size - 1 + 1) * b._iterations
        = (b._size - 1) * b._iterations + b._iterations := Nat.succ_mul _ _
    have hS1 : b._size - 1 + 1 = b._size := by omega
    rw [hS1] at hmul
    omega
  · refine ⟨(List.range b._size).map
      (fun i => (b._entries.drop (i * b._iterations)).take b._iterations), by simp, ?_, ?_⟩
    · intro i hi
      rw [b.range_for_eq i hlen (hbucket i hi), List.getElem?_map, List.getElem?_range hi]
      rfl
    · rw [flatten_blocks, List.take_of_length_le (by omega)]
  · intro o ho
    have h0 : 0 < b._iterations := by
      rcases Nat.eq_zero_or_pos b._iterations with h0 | h0
      · rw [h0, Nat.mul_zero] at hshape
        omega
      · exact h0
    have hdm := Nat.div_add_mod o b._iterations
    have hml := Nat.mod_lt o h0
    rw [Nat.mul_comm] at hdm
    have hi : o / b._iterations < b._size := by
      by_contra hge
      have : b._size * b._iterations ≤ o / b._iterations * b._iterations :=
        Nat.mul_le_mul_right _ (by omega)
      omega
    refine ⟨o / b._iterations, ⟨hi, ?_, ?_⟩, ?_⟩
    · rw [(b.begin_end_const_eq _ hlen (hbucket _ hi)).1]
      omega
    · rw [(b.begin_end_const_eq _ hlen (hbucket _ hi)).2]
      omega
    · rintro i ⟨hiS, hb, he⟩
      rw [(b.begin_end_const_eq i hlen (hbucket i hiS)).1] at hb
      rw [(b.begin_end_const_eq i hlen (hbucket i hiS)).2, ← Nat.succ_mul] at he
      exact (Nat.div_eq_of_lt_le hb he).symm

/-- Claim C13 on the series of shape `(2, 3)` with six entries. -/
theorem C13_ranges_tile_storage_witness :
    (sample_series 2 3 [10, 11, 12, 20, 21, 22]).begin_const 0 = 0 ∧
      (∀ i, (sample_series 2 3 [10, 11, 12, 20, 21, 22]).end_const i
        = (sample_series 2 3 [10, 11, 12, 20, 21, 22]).begin_const (i + 1)) ∧
      (0 < 2 → (sample_series 2 3 [10, 11, 12, 20, 21, 22]).end_const (2 - 1) = 6) ∧
      (∃ rs : List (List entry_t), rs.length = 2 ∧
        (∀ i, i < 2 → (sample_series 2 3 [10, 11, 12, 20, 21, 22]).range_for i = rs[i]?) ∧
        rs.flatten = (sample_series 2 3 [10, 11, 12, 20, 21, 22])._entries) ∧
      (∀ o, o < 6 →
        ∃! i, i < 2 ∧ (sample_series 2 3 [10, 11, 12, 20, 21, 22]).begin_const i ≤ o ∧
          o < (sample_series 2 3 [10, 11, 12, 20, 21, 22]).end_const i) :=
  C13_ranges_tile_storage (sample_series 2 3 [10, 11, 12, 20, 21, 22]) (by decide) (by decide)

/-- Claim C14: for each of the seventeen enumerators `k`, the value of `k` selects the case
label `k` of the switch, so control never reaches the statement after the switch:
`get_measure_name k` is not "Invalid", and `get_measure e k` is the field of `e` at the
position of `k`, hence `-1` only when that field is `-1`.  The statements after the switches
(`return -1`, `return "Invalid"`) are what a value without a case label yields. -/
theorem C14_fallback_unreachable (e : entry_t) (k : measure_kind_t) :
    switch_case k.toNat = some k ∧
      get_measure_name k ≠ "Invalid" ∧
      e.measures[k.toNat]? = some (get_measure e k) ∧
      (get_measure e k = -1 ↔ e.measures[k.toNat]? = some (-1)) ∧
      (∀ v, switch_case v = none ↔ 17 ≤ v) ∧
      (∀ v, switch_case v = none →
        get_measure_switch e v = -1 ∧ get_measure_name_switch v = "Invalid") ∧
      (∀ v c, switch_case v = some c →
        get_measure_switch e v = get_measure e c ∧
          get_measure_name_switch v = get_measure_name c) := by
  have hfall : ∀ v, 17 ≤ v → switch_case v = none ∧
      get_measure_switch e v = -1 ∧ get_measure_name_switch v = "Invalid" := by
    intro v hv
    have h0 : v ≠ 0 := by omega
    have h1 : v ≠ 1 := by omega
    have h2 : v ≠ 2 := by omega
    have h3 : v ≠ 3 := by omega
    have h4 : v ≠ 4 := by omega
    have h5 : v ≠ 5 := by omega
    have h6 : v ≠ 6 := by omega
    have h7 : v ≠ 7 := by omega
    have h8 : v ≠ 8 := by omega
    have h9 : v ≠ 9 := by omega
    have h10 : v ≠ 10 := by omega
    have h11 : v ≠ 11 := by omega
    have h12 : v ≠ 12 := by omega
    have h13 : v ≠ 13 := by omega
    have h14 : v ≠ 14 := by omega
    have h15 : v ≠ 15 := by omega
    have h16 : v ≠ 16 := by omega
    simp [switch_case, get_measure_switch, get_measure_name_switch, measure_kind_t.toNat, *]
  have hcase : ∀ v, v < 17 → ∃ c : measure_kind_t, switch_case v = some c ∧ v = c.toNat := by
    intro v hv
    interval_cases v <;> exact ⟨_, rfl, rfl⟩
  have hnone : ∀ v, switch_case v = none ↔ 17 ≤ v := by
    intro v
    constructor
    · intro h
      by_contra hlt
      obtain ⟨c, hc, _⟩ := hcase v (by omega)
      rw [hc] at h
      cases h
    · intro h
      exact (hfall v h).1
  refine ⟨?_, ?_, ?_, ?_, hnone, ?_, ?_⟩
  · cases k <;> rfl
  · cases k <;> decide
  · cases k <;> rfl
  · have hsel : e.measures[k.toNat]? = some (get_measure e k) := by cases k <;> rfl
    rw [hsel]
    constructor
    · intro h
      rw [h]
    · intro h
      exact Option.some.inj h
  · intro v h
    exact (hfall v ((hnone v).1 h)).2
  · intro v c h
    have hlt : v < 17 := by
      by_contra hge
      rw [(hnone v).2 (by omega)] at h
      cases h
    obtain ⟨c2, hc, hv⟩ := hcase v hlt
    rw [hc] at h
    cases h
    subst hv
    exact ⟨rfl, rfl⟩

/-- Claim C15: on every series whose stored sequence has length exactly
`_size * _iterations`, `is_valid` returns false, whatever sizes the entries carry; this
includes the empty series with `_size = 0` or `_iterations = 0`. -/
theorem C15_is_valid_false_on_exact_length (b : benchmark_t)
    (hlen : b._entries.length < SIZE_RANGE)
    (hshape : b._entries.length = b._size * b._iterations) :
    b.is_valid = some false ∧ b.is_valid_reads = [] := by
  have hw : size_wrap (b._iterations * b._size) = b._entries.length := by
    rw [Nat.mul_comm, ← hshape]
    exact size_wrap_of_lt hlen
  unfold benchmark_t.is_valid benchmark_t.is_valid_reads
  rw [if_pos hw.symm, if_pos hw.symm]
  exact ⟨rfl, rfl⟩

/-- Claim C15 on the series of shape `(2, 3)` with six entries of mixed sizes, and on the
empty series of the shapes `(0, 3)` and `(2, 0)`. -/
theorem C15_is_valid_false_on_exact_length_witness :
    ((sample_series 2 3 [10, 99, 10, 20, 20, 7]).is_valid = some false ∧
        (sample_series 2 3 [10, 99, 10, 20, 20, 7]).is_valid_reads = []) ∧
      ((benchmark_t.empty "series" 0 3).is_valid = some false ∧
        (benchmark_t.empty "series" 0 3).is_valid_reads = []) ∧
      ((benchmark_t.empty "series" 2 0).is_valid = some false ∧
        (benchmark_t.empty "series" 2 0).is_valid_reads = []) :=
  ⟨C15_is_valid_false_on_exact_length (sample_series 2 3 [10, 99, 10, 20, 20, 7])
      (by decide) (by decide),
    C15_is_valid_false_on_exact_length (benchmark_t.empty "series" 0 3) (by decide) (by decide),
    C15_is_valid_false_on_exact_length (benchmark_t.empty "series" 2 0) (by decide) (by decide)⟩

/-- Claim C16: on a series whose stored sequence is strictly longer than
`_size * _iterations`, `is_valid` returns true if and only if, for every size index below
`_size`, the entries at the flat offsets of the bucket carry one problem size, and false
otherwise; the entries at offsets `_size * _iterations` and beyond have no influence: two
such series that agree on name, shape and the first `_size * _iterations` entries get the
same result. -/
theorem C16_is_valid_on_longer_storage (b : benchmark_t)
    (hlen : b._entries.length < SIZE_RANGE)
    (hlong : b._size * b._iterations < b._entries.length) :
    (b.is_valid = some true ↔ b.bucket_sizes_agree) ∧
      (b.is_valid = some false ↔ ¬ b.bucket_sizes_agree) ∧
      (∀ b2 : benchmark_t, b2._name = b._name → b2._size = b._size →
        b2._iterations = b._iterations →
        b2._entries.take (b._size * b._iterations)
          = b._entries.take (b._size * b._iterations) →
        b2._entries.length < SIZE_RANGE →
        b._size * b._iterations < b2._entries.length →
        b2.is_valid = b.is_valid) := by
  obtain ⟨r, hr, hP⟩ := b.is_valid_iff_of_longer hlen hlong
  refine ⟨?_, ?_, ?_⟩
  · rw [hr, ← hP]
    constructor
    · intro h
      exact Option.some.inj h
    · intro h
      rw [h]
  · rw [hr, ← hP]
    constructor
    · intro h
      rw [Option.some.inj h]
      exact Bool.false_ne_true
    · intro h
      cases r
      · rfl
      · exact absurd rfl h
  · intro b2 _ hS hI htake hlen2 hlong2
    obtain ⟨r2, hr2, hP2⟩ := b2.is_valid_iff_of_longer hlen2 (by rw [hS, hI]; exact hlong2)
    have hiff : r2 = true ↔ r = true := by
      rw [hP2, hP]
      exact b.bucket_sizes_agree_congr b2 hS hI htake
    rw [hr, hr2]
    congr 1
    cases r <;> cases r2 <;> simp_all

/-- Claim C16 on the series of shape `(2, 3)` that stores the seven sizes
`10, 10, 10, 20, 20, 20, 30`: the result is true, and it is the result on the series that
stores the eight sizes `10, 10, 10, 20, 20, 20, 77, 78`. -/
theorem C16_is_valid_on_longer_storage_witness :
    (sample_series 2 3 [10, 10, 10, 20, 20, 20, 30]).is_valid = some true ∧
      (sample_series 2 3 [10, 10, 10, 20, 20, 20, 77, 78]).is_valid
        = (sample_series 2 3 [10, 10, 10, 20, 20, 20, 30]).is_valid :=
  ⟨(C16_is_valid_on_longer_storage (sample_series 2 3 [10, 10, 10, 20, 20, 20, 30])
      (by decide) (by decide)).1.2 (by decide),
    (C16_is_valid_on_longer_storage (sample_series 2 3 [10, 10, 10, 20, 20, 20, 30])
      (by decide) (by decide)).2.2 (sample_series 2 3 [10, 10, 10, 20, 20, 20, 77, 78])
      rfl rfl rfl (by decide) (by decide) (by decide)⟩

/-- Claim C17: on a series whose stored sequence has length at least `_size * _iterations`,
every offset that `is_valid` reads is the first offset `i * _iterations` of a bucket
`i < _size` or an offset within `[i * _iterations, (i + 1) * _iterations)`, and is strictly
below the stored length; hence `is_valid` returns a boolean. -/
theorem C17_is_valid_reads_in_bounds (b : benchmark_t)
    (hlen : b._entries.length < SIZE_RANGE)
    (h : b._size * b._iterations ≤ b._entries.length) :
    (∀ o ∈ b.is_valid_reads,
        o < b._entries.length ∧
          ∃ i, i < b._size ∧
            (o = i * b._iterations ∨
              (i * b._iterations ≤ o ∧ o < (i + 1) * b._iterations))) ∧
      ∃ r, b.is_valid = some r := by
  refine ⟨fun o ho => b.is_valid_reads_mem hlen h o ho, ?_⟩
  cases hv : b.is_valid with
  | some r => exact ⟨r, rfl⟩
  | none =>
    obtain ⟨o, ho, hle⟩ := b.is_valid_none_iff.1 hv
    have := (b.is_valid_reads_mem hlen h o ho).1
    omega

/-- Claim C17 on the series of shape `(2, 3)` that stores seven entries, and on the series
of shape `(2, 0)` that stores one entry, where each bucket check reads offset 0. -/
theorem C17_is_valid_reads_in_bounds_witness :
    ((∀ o ∈ (sample_series 2 3 [10, 10, 10, 20, 20, 20, 30]).is_valid_reads,
        o < (sample_series 2 3 [10, 10, 10, 20, 20, 20, 30])._entries.length ∧
          ∃ i, i < 2 ∧ (o = i * 3 ∨ (i * 3 ≤ o ∧ o < (i + 1) * 3))) ∧
      ∃ r, (sample_series 2 3 [10, 10, 10, 20, 20, 20, 30]).is_valid = some r) ∧
    ((∀ o ∈ (sample_series 2 0 [10]).is_valid_reads,
        o < (sample_series 2 0 [10])._entries.length ∧
          ∃ i, i < 2 ∧ (o = i * 0 ∨ (i * 0 ≤ o ∧ o < (i + 1) * 0))) ∧
      ∃ r, (sample_series 2 0 [10]).is_valid = some r) :=
  ⟨C17_is_valid_reads_in_bounds (sample_series 2 3 [10, 10, 10, 20, 20, 20, 30])
      (by decide) (by decide),
    C17_is_valid_reads_in_bounds (sample_series 2 0 [10]) (by decide) (by decide)⟩

end grapher
